import Mathlib

/-!
Shallow embedding of the almanac range-mapping engine from `src/almanac.rs`
(Advent of Code 2023, day 5) together with the relevant parts of the parser
and the day-5 solver.

Modelling conventions:
* Rust `usize` is modelled as `Nat` (the code only adds, subtracts after a
  comparison, and compares, so no wrap-around arithmetic occurs in the
  functions modelled here).
* Rust `Range<usize>` (`start..end`, half open) is modelled as `Nat × Nat`.
* Rust strings are processed through `String.data`, as `List Char`, with
  structurally recursive splitting functions mirroring `str::lines`,
  `str::split_whitespace` and `usize::from_str`.
* The `while` loop of `AlmanacMap::map_ranges` is modelled with explicit
  fuel: `none` means the loop has not finished within the given fuel.
  For every run of the Rust loop that terminates the cursor advances by at
  least one position per iteration, so `range.end - range.start` fuel is
  enough; the wrapper `AlmanacMap.map_ranges` uses that amount.
-/

namespace Almanac2023

/-- Rust struct `RangeMap { destination_start, source_start, range_length }`. -/
structure RangeMap where
  destination_start : Nat
  source_start : Nat
  range_length : Nat
deriving DecidableEq, Repr

/-- Rust `Range::<usize>::contains` on a half-open interval `(start, end)`. -/
def intervalContains (r : Nat × Nat) (v : Nat) : Bool :=
  decide (r.1 ≤ v) && decide (v < r.2)

namespace RangeMap

/-- Rust `RangeMap::map`. -/
def map (rm : RangeMap) (value : Nat) : Option Nat :=
  if value < rm.source_start then none
  else if rm.source_start + rm.range_length ≤ value then none
  else some (rm.destination_start + (value - rm.source_start))

/-- Rust `RangeMap::range_in`: the source interval `source_start..source_start+range_length`. -/
def range_in (rm : RangeMap) : Nat × Nat :=
  (rm.source_start, rm.source_start + rm.range_length)

/-- Rust `RangeMap::range_out`: the destination interval. -/
def range_out (rm : RangeMap) : Nat × Nat :=
  (rm.destination_start, rm.destination_start + rm.range_length)

end RangeMap

/-- Rust `AlmanacMap` holds a single field `values: Vec<RangeMap>`; we identify
the table with that list. -/
abbrev AlmanacMap := List RangeMap

/-- Stable insertion used to model Rust `Vec::sort_by_key` (a stable sort)
keyed on `source_start`: an element is placed before the first strictly
greater key, so equal keys keep their original relative order. -/
def insertBySourceStart (rm : RangeMap) : List RangeMap → List RangeMap
  | [] => [rm]
  | x :: xs =>
    if rm.source_start ≤ x.source_start then rm :: x :: xs
    else x :: insertBySourceStart rm xs

/-- Stable sort by `source_start`, modelling `values.sort_by_key(|r| r.source_start)`. -/
def sortBySourceStart : List RangeMap → List RangeMap
  | [] => []
  | rm :: rest => insertBySourceStart rm (sortBySourceStart rest)

namespace AlmanacMap

/-- Rust `AlmanacMap::new`: sorts the rules by `source_start`. -/
def new (values : List RangeMap) : AlmanacMap :=
  sortBySourceStart values

/-- Rust `AlmanacMap::map`: first rule whose `map` hits wins, otherwise the
value passes through unchanged. -/
def map : AlmanacMap → Nat → Nat
  | [], value => value
  | rm :: rest, value =>
    match rm.map value with
    | some mappedValue => mappedValue
    | none => map rest value

/-- Rust `AlmanacMap::find_next_range_map`: the first rule whose
`source_start` is at or after `value`, or whose source interval contains
`value`. -/
def find_next_range_map (values : AlmanacMap) (value : Nat) : Option RangeMap :=
  values.find? (fun rm =>
    decide (rm.source_start ≥ value) || intervalContains rm.range_in value)

/-- The `while pos < range.end` loop of Rust `AlmanacMap::map_ranges`,
with explicit fuel; `none` means the loop did not finish within the fuel.
In the branch where the found rule contains `pos`, the Rust code computes
`range_map.map(pos).unwrap()`, which there equals
`destination_start + (pos - source_start)` (see `RangeMap.map_of_contains`). -/
def map_ranges_loop (values : AlmanacMap) (rend : Nat) : Nat → Nat → Option (List (Nat × Nat))
  | 0, pos => if pos < rend then none else some []
  | fuel + 1, pos =>
    if pos < rend then
      match find_next_range_map values pos with
      | some rm =>
        if intervalContains rm.range_in pos then
          let endPos := min rm.range_in.2 rend
          let startRange := rm.destination_start + (pos - rm.source_start)
          (map_ranges_loop values rend fuel endPos).map
            (fun rest => (startRange, startRange + (endPos - pos)) :: rest)
        else
          (map_ranges_loop values rend fuel rm.source_start).map
            (fun rest => (pos, rm.source_start) :: rest)
      | none => some [(pos, rend)]
    else some []

/-- Rust `AlmanacMap::map_ranges`.  Fuel `range.end - range.start` is enough
for every terminating run of the loop (each iteration that does not end the
loop advances the cursor by at least one), so `none` is returned exactly on
the inputs where the Rust loop runs forever. -/
def map_ranges (values : AlmanacMap) (range : Nat × Nat) : Option (List (Nat × Nat)) :=
  map_ranges_loop values range.2 (range.2 - range.1) range.1

end AlmanacMap

/-! ### The parser (`FromStr` instances and helpers from `almanac.rs`)

Strings are handled as `List Char` via `String.data`, with structurally
recursive functions mirroring the Rust standard-library primitives that the
parser uses. -/

/-- Rust `AlmanacParseError`. -/
inductive AlmanacParseError where
  | missingSeeds
  | invalidSeed (s : String)
  | missingSeedToSoilMap
  | missingSoilToFertilizerMap
  | missingFertilizerToWaterMap
  | missingWaterToLightMap
  | missingLightToTemperatureMap
  | missingTemperatureToHumidityMap
  | missingHumidityToLocationMap
  | missingHeaderLine (s : String)
  | invalidRange (s : String)
  | invalidValueInRange (s : String)
  | insufficientSeedNumbers
deriving DecidableEq, Repr

/-- Split a character list at every character satisfying `p`, keeping empty
pieces (the semantics of Rust `str::split`, and of `str::lines` for
`p = (· = ...)` on a single separator). -/
def splitOnPred (p : Char → Bool) : List Char → List (List Char)
  | [] => [[]]
  | c :: cs =>
    let r := splitOnPred p cs
    if p c then [] :: r
    else
      match r with
      | h :: t => (c :: h) :: t
      | [] => [[c]]

/-- Drop a single trailing carriage return, as Rust `str::lines` does for a
line terminated by `\r\n`. -/
def stripTrailingCR (l : List Char) : List Char :=
  match l.reverse with
  | '\r' :: rest => rest.reverse
  | _ => l

/-- Rust `str::lines`: split at `\n`, strip a trailing `\r` from every
terminated line, and drop the empty piece after a final newline (a final
unterminated piece keeps any trailing `\r`). -/
def rustLines (s : List Char) : List (List Char) :=
  let parts := splitOnPred (fun c => c = '\n') s
  let lastPart := (parts.getLast?).getD []
  (parts.dropLast.map stripTrailingCR) ++ (if lastPart = [] then [] else [lastPart])

/-- Rust `str::split_whitespace`: split at whitespace and drop empty pieces. -/
def splitWhitespace (s : List Char) : List (List Char) :=
  (splitOnPred Char.isWhitespace s).filter (fun t => t ≠ [])

/-- Rust `str::trim`: drop whitespace from both ends. -/
def trimChars (l : List Char) : List Char :=
  ((l.dropWhile Char.isWhitespace).reverse.dropWhile Char.isWhitespace).reverse

/-- Rust `usize::from_str` (on a 64-bit target): an optional leading `+`,
then at least one ASCII digit, rejecting values that overflow `u64`. -/
def parseUsize (l : List Char) : Option Nat :=
  let t := match l with
    | '+' :: rest => rest
    | _ => l
  if t = [] then none
  else if t.all Char.isDigit then
    let n := t.foldl (fun acc c => acc * 10 + (c.toNat - 48)) 0
    if n < 2 ^ 64 then some n else none
  else none

namespace RangeMap

/-- Rust `impl FromStr for RangeMap`: three whitespace-separated unsigned
integers `destination_start source_start range_length`; a non-numeric token
is reported first (the `collect::<Result<..>>` runs before the length
check), then a token count other than three. -/
def from_str (s : List Char) : Except AlmanacParseError RangeMap := do
  let values ← (splitWhitespace s).mapM (fun n =>
    match parseUsize (trimChars n) with
    | some v => Except.ok v
    | none => Except.error (AlmanacParseError.invalidValueInRange n.asString))
  match values with
  | [a, b, c] => Except.ok ⟨a, b, c⟩
  | _ => Except.error (AlmanacParseError.invalidRange s.asString)

end RangeMap

/-- The `for line in lines` loop of `AlmanacMap::from_lines`: parse rule
lines until a blank line (consumed) or the end of input, returning the rules
and the remaining lines. -/
def parseRangeLines : List (List Char) → Except AlmanacParseError (List RangeMap × List (List Char))
  | [] => Except.ok ([], [])
  | line :: rest =>
    if line = [] then Except.ok ([], rest)
    else do
      let rangeMap ← RangeMap.from_str line
      let (more, remaining) ← parseRangeLines rest
      Except.ok (rangeMap :: more, remaining)

namespace AlmanacMap

/-- Rust `AlmanacMap::from_lines`: a header line whose trimmed text is
`"<mapName> map:"`, then rule lines until a blank line, sorted by `new`. -/
def from_lines (lines : List (List Char)) (mapName : List Char) :
    Except AlmanacParseError (AlmanacMap × List (List Char)) :=
  match lines with
  | [] => Except.error (AlmanacParseError.missingHeaderLine mapName.asString)
  | headerLine :: rest =>
    if trimChars headerLine = mapName ++ (" map:").data then do
      let (values, remaining) ← parseRangeLines rest
      Except.ok (AlmanacMap.new values, remaining)
    else Except.error (AlmanacParseError.missingHeaderLine mapName.asString)

end AlmanacMap

/-- Rust `get_seed_ranges`: an odd-length seed list is an error; otherwise
pair the list up as `chunk[0]..(chunk[0] + chunk[1])`. -/
def get_seed_ranges (seeds : List Nat) : Except AlmanacParseError (List (Nat × Nat)) :=
  if seeds.length % 2 ≠ 0 then Except.error AlmanacParseError.insufficientSeedNumbers
  else Except.ok (chunkPairs seeds)
where
  /-- Models `seeds.chunks_exact(2).map(|chunk| chunk[0]..(chunk[0] + chunk[1]))`. -/
  chunkPairs : List Nat → List (Nat × Nat)
    | a :: b :: rest => (a, a + b) :: chunkPairs rest
    | _ => []

/-- Rust struct `Almanac`. -/
structure Almanac where
  seeds : List Nat
  seed_ranges : List (Nat × Nat)
  seed_to_soil_map : AlmanacMap
  soil_to_fertilizer_map : AlmanacMap
  fertilizer_to_water_map : AlmanacMap
  water_to_light_map : AlmanacMap
  light_to_temperature_map : AlmanacMap
  temperature_to_humidity_map : AlmanacMap
  humidity_to_location_map : AlmanacMap
deriving DecidableEq, Repr

namespace Almanac

/-- The seed-number parsing done inside `Almanac::from_str`: the part of the
seed line after the 7-byte prefix `"seeds: "`, split on whitespace, each
token parsed as `usize`. -/
def parseSeedNumbers (seedLine : List Char) : Except AlmanacParseError (List Nat) :=
  ((splitWhitespace (seedLine.drop 7)).mapM (fun n =>
    match parseUsize (trimChars n) with
    | some v => Except.ok v
    | none => Except.error (AlmanacParseError.invalidSeed n.asString)))

/-- Rust `impl FromStr for Almanac`. -/
def from_str (s : String) : Except AlmanacParseError Almanac :=
  match rustLines s.data with
  | [] => Except.error AlmanacParseError.missingSeeds
  | seedLine :: lines =>
    if ("seeds: ").data.isPrefixOf seedLine then do
      let seeds ← parseSeedNumbers seedLine
      let seed_ranges ← get_seed_ranges seeds
      match lines with
      | [] => Except.error AlmanacParseError.missingSeedToSoilMap
      | blankLine :: lines =>
        if blankLine = [] then do
          let (seed_to_soil_map, lines) ← AlmanacMap.from_lines lines ("seed-to-soil").data
          let (soil_to_fertilizer_map, lines) ← AlmanacMap.from_lines lines ("soil-to-fertilizer").data
          let (fertilizer_to_water_map, lines) ← AlmanacMap.from_lines lines ("fertilizer-to-water").data
          let (water_to_light_map, lines) ← AlmanacMap.from_lines lines ("water-to-light").data
          let (light_to_temperature_map, lines) ← AlmanacMap.from_lines lines ("light-to-temperature").data
          let (temperature_to_humidity_map, lines) ← AlmanacMap.from_lines lines ("temperature-to-humidity").data
          let (humidity_to_location_map, _) ← AlmanacMap.from_lines lines ("humidity-to-location").data
          Except.ok {
            seeds, seed_ranges,
            seed_to_soil_map, soil_to_fertilizer_map, fertilizer_to_water_map,
            water_to_light_map, light_to_temperature_map,
            temperature_to_humidity_map, humidity_to_location_map }
        else Except.error AlmanacParseError.missingSeedToSoilMap
    else Except.error AlmanacParseError.missingSeeds

/-- Rust `Almanac::seed_to_location`: the seven stage maps applied in order. -/
def seed_to_location (a : Almanac) (seed : Nat) : Nat :=
  let soil := AlmanacMap.map a.seed_to_soil_map seed
  let fertilizer := AlmanacMap.map a.soil_to_fertilizer_map soil
  let water := AlmanacMap.map a.fertilizer_to_water_map fertilizer
  let light := AlmanacMap.map a.water_to_light_map water
  let temperature := AlmanacMap.map a.light_to_temperature_map light
  let humidity := AlmanacMap.map a.temperature_to_humidity_map temperature
  AlmanacMap.map a.humidity_to_location_map humidity

/-- The seven stage tables of the conversion chain, in their fixed order. -/
def stageMaps (a : Almanac) : List AlmanacMap :=
  [a.seed_to_soil_map, a.soil_to_fertilizer_map, a.fertilizer_to_water_map,
   a.water_to_light_map, a.light_to_temperature_map,
   a.temperature_to_humidity_map, a.humidity_to_location_map]

/-- One `flat_map` stage of `Almanac::seed_range_to_location_ranges`:
map every interval of the list through the table and flatten, propagating
`none` when some `map_ranges` call does not terminate. -/
def mapRangesList (values : AlmanacMap) (rs : List (Nat × Nat)) : Option (List (Nat × Nat)) := do
  let ls ← rs.mapM (AlmanacMap.map_ranges values)
  pure ls.flatten

/-- Rust `Almanac::seed_range_to_location_ranges`: push one seed range
through the seven stages, flattening at each stage. -/
def seed_range_to_location_ranges (a : Almanac) (seedRange : Nat × Nat) :
    Option (List (Nat × Nat)) := do
  let soilRanges ← AlmanacMap.map_ranges a.seed_to_soil_map seedRange
  let fertilizerRanges ← mapRangesList a.soil_to_fertilizer_map soilRanges
  let waterRanges ← mapRangesList a.fertilizer_to_water_map fertilizerRanges
  let lightRanges ← mapRangesList a.water_to_light_map waterRanges
  let temperatureRanges ← mapRangesList a.light_to_temperature_map lightRanges
  let humidityRanges ← mapRangesList a.temperature_to_humidity_map temperatureRanges
  mapRangesList a.humidity_to_location_map humidityRanges

/-- Rust `Almanac::get_seed_locations`. -/
def get_seed_locations (a : Almanac) : List Nat :=
  a.seeds.map (a.seed_to_location)

/-- Rust `Almanac::iter_all_seeds`: every seed value of every seed range. -/
def iter_all_seeds (a : Almanac) : List Nat :=
  (a.seed_ranges.map (fun r => List.range' r.1 (r.2 - r.1))).flatten

/-- Rust `Almanac::iter_all_seed_locations`. -/
def iter_all_seed_locations (a : Almanac) : List Nat :=
  (a.iter_all_seeds).map (a.seed_to_location)

/-- Rust `Almanac::get_seed_location_ranges`. -/
def get_seed_location_ranges (a : Almanac) : Option (List (Nat × Nat)) := do
  let ls ← a.seed_ranges.mapM (a.seed_range_to_location_ranges)
  pure ls.flatten

end Almanac

/-- Length of a half-open interval, `length(r)` in the specification. -/
def intervalLength (r : Nat × Nat) : Nat := r.2 - r.1

/-- Sum of the lengths of a list of intervals. -/
def totalLength (l : List (Nat × Nat)) : Nat :=
  (l.map intervalLength).sum

/-- A parseable almanac input exercising the unclamped identity branch of
`map_ranges`: one seed range `[10, 11)`, a seed-to-soil rule starting at
100 (beyond every queried position) and a soil-to-fertilizer rule mapping
`[50, 51)` to `[0, 1)`; the five remaining stages have no rules. -/
def day5CexInput : String :=
  "seeds: 10 1\n\nseed-to-soil map:\n100 100 5\n\nsoil-to-fertilizer map:\n0 50 1\n\nfertilizer-to-water map:\n\nwater-to-light map:\n\nlight-to-temperature map:\n\ntemperature-to-humidity map:\n\nhumidity-to-location map:"

/-- The almanac that `Almanac.from_str` produces from `day5CexInput`. -/
def day5CexAlmanac : Almanac where
  seeds := [10, 1]
  seed_ranges := [(10, 11)]
  seed_to_soil_map := [RangeMap.mk 100 100 5]
  soil_to_fertilizer_map := [RangeMap.mk 0 50 1]
  fertilizer_to_water_map := []
  water_to_light_map := []
  light_to_temperature_map := []
  temperature_to_humidity_map := []
  humidity_to_location_map := []

/-- Value `v` lies in the source interval of the rule `rm`. -/
def Covers (rm : RangeMap) (v : Nat) : Prop :=
  rm.source_start ≤ v ∧ v < rm.source_start + rm.range_length

-- Sanity checks against `test_example_almanac_map_ranges` in the source:
-- the day-5 example seed-to-soil table on the query `96..103`.
example :
    AlmanacMap.map_ranges
      (AlmanacMap.new [⟨50, 98, 2⟩, ⟨52, 50, 48⟩]) (96, 103) =
      some [(98, 100), (50, 52), (100, 103)] := by decide

example :
    AlmanacMap.map (AlmanacMap.new [⟨50, 98, 2⟩, ⟨52, 50, 48⟩]) 79 = 81 := by decide

/-! ### Helper lemmas -/

theorem intervalContains_range_in {rm : RangeMap} {v : Nat} :
    intervalContains rm.range_in v = true ↔ Covers rm v := by
  simp [intervalContains, RangeMap.range_in, Covers]

theorem intervalContains_range_in_false {rm : RangeMap} {v : Nat} :
    intervalContains rm.range_in v = false ↔ ¬ Covers rm v := by
  rw [← intervalContains_range_in]
  simp

theorem RangeMap.map_of_covers {rm : RangeMap} {v : Nat} (h : Covers rm v) :
    rm.map v = some (rm.destination_start + (v - rm.source_start)) := by
  obtain ⟨h1, h2⟩ := h
  unfold RangeMap.map
  rw [if_neg (by omega), if_neg (by omega)]

theorem RangeMap.map_eq_none_of_not_covers {rm : RangeMap} {v : Nat} (h : ¬ Covers rm v) :
    rm.map v = none := by
  unfold Covers at h
  unfold RangeMap.map
  split_ifs with h1 h2 <;> first | rfl | exact absurd ⟨by omega, by omega⟩ h

theorem AlmanacMap.map_eq_self_of_no_rule {values : AlmanacMap} {v : Nat}
    (h : ∀ rm ∈ values, ¬ Covers rm v) :
    AlmanacMap.map values v = v := by
  induction values with
  | nil => rfl
  | cons rm rest ih =>
    have h1 := RangeMap.map_eq_none_of_not_covers (h rm (by simp))
    rw [show AlmanacMap.map (rm :: rest) v =
        (match rm.map v with
          | some mappedValue => mappedValue
          | none => AlmanacMap.map rest v) from rfl, h1]
    exact ih (fun x hx => h x (List.mem_cons_of_mem _ hx))

/-- The Boolean predicate scanned by `find_next_range_map`, as a proposition. -/
theorem find_pred_iff {rm : RangeMap} {v : Nat} :
    (decide (rm.source_start ≥ v) || intervalContains rm.range_in v) = true ↔
      (v ≤ rm.source_start ∨ Covers rm v) := by
  rw [Bool.or_eq_true, decide_eq_true_eq, intervalContains_range_in]

theorem AlmanacMap.find_next_cons_of_pos {x : RangeMap} {rest : List RangeMap} {v : Nat}
    (h : (decide (x.source_start ≥ v) || intervalContains x.range_in v) = true) :
    AlmanacMap.find_next_range_map (x :: rest) v = some x := by
  unfold AlmanacMap.find_next_range_map
  exact List.find?_cons_of_pos _ h

theorem AlmanacMap.find_next_cons_of_neg {x : RangeMap} {rest : List RangeMap} {v : Nat}
    (h : ¬ (decide (x.source_start ≥ v) || intervalContains x.range_in v) = true) :
    AlmanacMap.find_next_range_map (x :: rest) v =
      AlmanacMap.find_next_range_map rest v := by
  unfold AlmanacMap.find_next_range_map
  exact List.find?_cons_of_neg _ h

theorem AlmanacMap.map_eq_of_find_covers {values : AlmanacMap} {v : Nat} {rm : RangeMap}
    (hf : AlmanacMap.find_next_range_map values v = some rm)
    (hc : Covers rm v) :
    AlmanacMap.map values v = rm.destination_start + (v - rm.source_start) := by
  induction values with
  | nil => simp [AlmanacMap.find_next_range_map] at hf
  | cons x rest ih =>
    by_cases hp : (decide (x.source_start ≥ v) || intervalContains x.range_in v) = true
    · rw [AlmanacMap.find_next_cons_of_pos hp] at hf
      injection hf with he
      subst he
      rw [show AlmanacMap.map (x :: rest) v =
          (match x.map v with
            | some mappedValue => mappedValue
            | none => AlmanacMap.map rest v) from rfl,
        RangeMap.map_of_covers hc]
    · rw [AlmanacMap.find_next_cons_of_neg hp] at hf
      have hxc : ¬ Covers x v := by
        intro hcov
        exact hp (find_pred_iff.mpr (Or.inr hcov))
      rw [show AlmanacMap.map (x :: rest) v =
          (match x.map v with
            | some mappedValue => mappedValue
            | none => AlmanacMap.map rest v) from rfl,
        RangeMap.map_eq_none_of_not_covers hxc]
      exact ih hf

theorem AlmanacMap.no_rule_covers_of_find_gap {values : AlmanacMap} {v : Nat} {rm : RangeMap}
    (hs : values.Pairwise (fun a b => a.source_start ≤ b.source_start))
    (hf : AlmanacMap.find_next_range_map values v = some rm)
    (hlt : v < rm.source_start) :
    ∀ x ∈ values, ¬ Covers x v := by
  induction values with
  | nil => simp
  | cons y rest ih =>
    rw [List.pairwise_cons] at hs
    obtain ⟨hy, hrest⟩ := hs
    by_cases hp : (decide (y.source_start ≥ v) || intervalContains y.range_in v) = true
    · rw [AlmanacMap.find_next_cons_of_pos hp] at hf
      injection hf with he
      subst he
      intro x hx
      rcases List.mem_cons.mp hx with rfl | hx
      · exact fun hcov => by have h1 := hcov.1; omega
      · have hyx := hy x hx
        exact fun hcov => by
          obtain ⟨hc1, _⟩ := hcov
          omega
    · rw [AlmanacMap.find_next_cons_of_neg hp] at hf
      intro x hx
      rcases List.mem_cons.mp hx with rfl | hx
      · exact fun hcov => hp (find_pred_iff.mpr (Or.inr hcov))
      · exact ih hrest hf x hx

theorem Option.map_cons_eq_some {o : Option (List (Nat × Nat))} {x : Nat × Nat}
    {out : List (Nat × Nat)}
    (h : o.map (fun rest => x :: rest) = some out) :
    ∃ rest, o = some rest ∧ out = x :: rest := by
  cases o with
  | none => simp at h
  | some rest =>
    refine ⟨rest, rfl, ?_⟩
    simpa using h.symm

theorem find_next_range_map_pred {values : AlmanacMap} {v : Nat} {rm : RangeMap}
    (hf : AlmanacMap.find_next_range_map values v = some rm) :
    v ≤ rm.source_start ∨ Covers rm v := by
  induction values with
  | nil => simp [AlmanacMap.find_next_range_map] at hf
  | cons x rest ih =>
    by_cases hp : (decide (x.source_start ≥ v) || intervalContains x.range_in v) = true
    · rw [AlmanacMap.find_next_cons_of_pos hp] at hf
      injection hf with he
      subst he
      exact find_pred_iff.mp hp
    · rw [AlmanacMap.find_next_cons_of_neg hp] at hf
      exact ih hf

theorem find_next_range_map_mem {values : AlmanacMap} {v : Nat} {rm : RangeMap}
    (hf : AlmanacMap.find_next_range_map values v = some rm) : rm ∈ values := by
  induction values with
  | nil => simp [AlmanacMap.find_next_range_map] at hf
  | cons x rest ih =>
    by_cases hp : (decide (x.source_start ≥ v) || intervalContains x.range_in v) = true
    · rw [AlmanacMap.find_next_cons_of_pos hp] at hf
      injection hf with he
      subst he
      exact List.mem_cons_self _ _
    · rw [AlmanacMap.find_next_cons_of_neg hp] at hf
      exact List.mem_cons_of_mem _ (ih hf)

/-! Equation lemmas for the four branches of one loop iteration. -/

theorem map_ranges_loop_of_not_lt {values : AlmanacMap} {rend pos : Nat} (fuel : Nat)
    (h : ¬ pos < rend) :
    AlmanacMap.map_ranges_loop values rend fuel pos = some [] := by
  cases fuel with
  | zero =>
    unfold AlmanacMap.map_ranges_loop
    rw [if_neg h]
  | succ f =>
    unfold AlmanacMap.map_ranges_loop
    rw [if_neg h]

theorem map_ranges_loop_zero_of_lt {values : AlmanacMap} {rend pos : Nat}
    (h : pos < rend) :
    AlmanacMap.map_ranges_loop values rend 0 pos = none := by
  unfold AlmanacMap.map_ranges_loop
  rw [if_pos h]

theorem map_ranges_loop_succ_break {values : AlmanacMap} {rend pos : Nat} (f : Nat)
    (hlt : pos < rend)
    (hfind : AlmanacMap.find_next_range_map values pos = none) :
    AlmanacMap.map_ranges_loop values rend (f + 1) pos = some [(pos, rend)] := by
  unfold AlmanacMap.map_ranges_loop
  rw [if_pos hlt]
  simp only [hfind]

theorem map_ranges_loop_succ_covered {values : AlmanacMap} {rend pos : Nat} {rm : RangeMap}
    (f : Nat) (hlt : pos < rend)
    (hfind : AlmanacMap.find_next_range_map values pos = some rm)
    (hcov : intervalContains rm.range_in pos = true) :
    AlmanacMap.map_ranges_loop values rend (f + 1) pos =
      (AlmanacMap.map_ranges_loop values rend f (min rm.range_in.2 rend)).map
        (fun rest =>
          (rm.destination_start + (pos - rm.source_start),
           rm.destination_start + (pos - rm.source_start) +
             (min rm.range_in.2 rend - pos)) :: rest) := by
  conv_lhs => unfold AlmanacMap.map_ranges_loop
  rw [if_pos hlt]
  simp only [hfind]
  rw [if_pos hcov]

theorem map_ranges_loop_succ_gap {values : AlmanacMap} {rend pos : Nat} {rm : RangeMap}
    (f : Nat) (hlt : pos < rend)
    (hfind : AlmanacMap.find_next_range_map values pos = some rm)
    (hcov : intervalContains rm.range_in pos = false) :
    AlmanacMap.map_ranges_loop values rend (f + 1) pos =
      (AlmanacMap.map_ranges_loop values rend f rm.source_start).map
        (fun rest => (pos, rm.source_start) :: rest) := by
  conv_lhs => unfold AlmanacMap.map_ranges_loop
  rw [if_pos hlt]
  simp only [hfind]
  rw [if_neg (by simp [hcov])]

/-- With every rule of positive length, a gap step advances strictly: the
found rule starts strictly after the cursor. -/
theorem gap_step_strict {values : AlmanacMap} {pos : Nat} {rm : RangeMap}
    (hpos : ∀ x ∈ values, 0 < x.range_length)
    (hfind : AlmanacMap.find_next_range_map values pos = some rm)
    (hcov : ¬ Covers rm pos) :
    pos < rm.source_start := by
  have hmem := find_next_range_map_mem hfind
  rcases find_next_range_map_pred hfind with h1 | h2
  · rcases Nat.lt_or_ge pos rm.source_start with h | h
    · exact h
    · exact absurd ⟨by omega, by have := hpos rm hmem; omega⟩ hcov
  · exact absurd h2 hcov

/-- With every rule of positive length, each loop iteration advances the
cursor by at least one, so fuel `rend - pos` suffices: the Rust loop
terminates on every query. -/
theorem map_ranges_loop_some_of_pos_lengths {values : AlmanacMap}
    (hpos : ∀ rm ∈ values, 0 < rm.range_length) (rend : Nat) :
    ∀ fuel pos, rend - pos ≤ fuel →
      ∃ l, AlmanacMap.map_ranges_loop values rend fuel pos = some l := by
  intro fuel
  induction fuel with
  | zero =>
    intro pos hfuel
    exact ⟨[], map_ranges_loop_of_not_lt 0 (by omega)⟩
  | succ f ih =>
    intro pos hfuel
    by_cases hlt : pos < rend
    · cases hfind : AlmanacMap.find_next_range_map values pos with
      | none => exact ⟨[(pos, rend)], map_ranges_loop_succ_break f hlt hfind⟩
      | some rm =>
        by_cases hcov : intervalContains rm.range_in pos = true
        · have hcov2 := intervalContains_range_in.mp hcov
          have hend : rend - min rm.range_in.2 rend ≤ f := by
            have hp2 : pos < rm.range_in.2 := hcov2.2
            omega
          obtain ⟨l, hl⟩ := ih (min rm.range_in.2 rend) hend
          refine ⟨(rm.destination_start + (pos - rm.source_start),
            rm.destination_start + (pos - rm.source_start) +
              (min rm.range_in.2 rend - pos)) :: l, ?_⟩
          rw [map_ranges_loop_succ_covered f hlt hfind hcov, hl]
          rfl
        · have hcov3 : intervalContains rm.range_in pos = false := by
            simpa using hcov
          have hgap := gap_step_strict hpos hfind
            (intervalContains_range_in_false.mp hcov3)
          obtain ⟨l, hl⟩ := ih rm.source_start (by omega)
          refine ⟨(pos, rm.source_start) :: l, ?_⟩
          rw [map_ranges_loop_succ_gap f hlt hfind hcov3, hl]
          rfl
    · exact ⟨[], map_ranges_loop_of_not_lt (f + 1) hlt⟩

/-- With every rule of positive length, every interval the loop emits is
non-empty. -/
theorem map_ranges_loop_nonempty {values : AlmanacMap}
    (hpos : ∀ rm ∈ values, 0 < rm.range_length) (rend : Nat) :
    ∀ fuel pos out, AlmanacMap.map_ranges_loop values rend fuel pos = some out →
      ∀ p ∈ out, p.1 < p.2 := by
  intro fuel
  induction fuel with
  | zero =>
    intro pos out h
    by_cases hlt : pos < rend
    · rw [map_ranges_loop_zero_of_lt hlt] at h
      cases h
    · rw [map_ranges_loop_of_not_lt 0 hlt] at h
      injection h with he
      subst he
      simp
  | succ f ih =>
    intro pos out h
    by_cases hlt : pos < rend
    · cases hfind : AlmanacMap.find_next_range_map values pos with
      | none =>
        rw [map_ranges_loop_succ_break f hlt hfind] at h
        injection h with he
        subst he
        intro p hp
        rw [List.mem_singleton] at hp
        subst hp
        exact hlt
      | some rm =>
        by_cases hcov : intervalContains rm.range_in pos = true
        · rw [map_ranges_loop_succ_covered f hlt hfind hcov] at h
          obtain ⟨rest, hrest, hout⟩ := Option.map_cons_eq_some h
          subst hout
          intro p hp
          rcases List.mem_cons.mp hp with rfl | hp
          · have hcov2 := intervalContains_range_in.mp hcov
            have hp2 : pos < rm.range_in.2 := hcov2.2
            simp only
            omega
          · exact ih _ rest hrest p hp
        · have hcov3 : intervalContains rm.range_in pos = false := by
            simpa using hcov
          rw [map_ranges_loop_succ_gap f hlt hfind hcov3] at h
          obtain ⟨rest, hrest, hout⟩ := Option.map_cons_eq_some h
          subst hout
          have hgap := gap_step_strict hpos hfind
            (intervalContains_range_in_false.mp hcov3)
          intro p hp
          rcases List.mem_cons.mp hp with rfl | hp
          · exact hgap
          · exact ih _ rest hrest p hp
    · rw [map_ranges_loop_of_not_lt (f + 1) hlt] at h
      injection h with he
      subst he
      simp

theorem mem_insertBySourceStart {rm a : RangeMap} {l : List RangeMap}
    (h : a ∈ insertBySourceStart rm l) : a = rm ∨ a ∈ l := by
  induction l with
  | nil => simpa [insertBySourceStart] using h
  | cons x xs ih =>
    unfold insertBySourceStart at h
    split_ifs at h with hle
    · rcases List.mem_cons.mp h with rfl | h
      · exact Or.inl rfl
      · exact Or.inr h
    · rcases List.mem_cons.mp h with rfl | h
      · exact Or.inr (List.mem_cons_self _ _)
      · rcases ih h with h1 | h1
        · exact Or.inl h1
        · exact Or.inr (List.mem_cons_of_mem _ h1)

theorem pairwise_insertBySourceStart {rm : RangeMap} {l : List RangeMap}
    (h : l.Pairwise (fun a b => a.source_start ≤ b.source_start)) :
    (insertBySourceStart rm l).Pairwise
      (fun a b => a.source_start ≤ b.source_start) := by
  induction l with
  | nil => simp [insertBySourceStart]
  | cons x xs ih =>
    rw [List.pairwise_cons] at h
    obtain ⟨hx, hxs⟩ := h
    unfold insertBySourceStart
    split_ifs with hle
    · rw [List.pairwise_cons]
      refine ⟨?_, by rw [List.pairwise_cons]; exact ⟨hx, hxs⟩⟩
      intro a ha
      rcases List.mem_cons.mp ha with rfl | ha
      · exact hle
      · exact le_trans hle (hx a ha)
    · rw [List.pairwise_cons]
      refine ⟨?_, ih hxs⟩
      intro a ha
      rcases mem_insertBySourceStart ha with rfl | ha
      · omega
      · exact hx a ha

/-- Every table the source ever builds (`AlmanacMap::new`, also reached from
the parser via `from_lines`) is sorted by `source_start`: the hypothesis of
the value/interval agreement theorem is an invariant of construction. -/
theorem pairwise_new (values : List RangeMap) :
    (AlmanacMap.new values).Pairwise
      (fun a b => a.source_start ≤ b.source_start) := by
  unfold AlmanacMap.new
  induction values with
  | nil => simp [sortBySourceStart]
  | cons rm rest ih => exact pairwise_insertBySourceStart ih

/-- When the first matching rule starts exactly at the cursor but does not
contain it (a zero-length rule at the cursor), the loop never advances:
it returns `none` for every fuel, the image of a Rust infinite loop. -/
theorem map_ranges_loop_diverges {values : AlmanacMap} {v rend : Nat} {rm : RangeMap}
    (hlt : v < rend)
    (hfind : AlmanacMap.find_next_range_map values v = some rm)
    (hcov : intervalContains rm.range_in v = false)
    (hsrc : rm.source_start = v) :
    ∀ fuel, AlmanacMap.map_ranges_loop values rend fuel v = none := by
  intro fuel
  induction fuel with
  | zero => exact map_ranges_loop_zero_of_lt hlt
  | succ f ih =>
    rw [map_ranges_loop_succ_gap f hlt hfind hcov, hsrc, ih]
    rfl

/-- Loop-level analysis for the value/interval agreement: on a sorted table,
a completed run of the loop over `v..v+1` yields one interval whose start is
`AlmanacMap.map values v`. -/
theorem map_ranges_loop_singleton {values : AlmanacMap} {v : Nat} {out : List (Nat × Nat)}
    (hs : List.Pairwise (fun a b => a.source_start ≤ b.source_start) values)
    (fuel : Nat)
    (h : AlmanacMap.map_ranges_loop values (v + 1) fuel v = some out) :
    out.map Prod.fst = [AlmanacMap.map values v] := by
  cases fuel with
  | zero =>
    rw [map_ranges_loop_zero_of_lt (by omega)] at h
    cases h
  | succ f =>
    cases hfind : AlmanacMap.find_next_range_map values v with
    | none =>
      rw [map_ranges_loop_succ_break f (by omega) hfind] at h
      injection h with he
      subst he
      have hnone : ∀ x ∈ values, ¬ Covers x v := by
        intro x hx hcov
        unfold AlmanacMap.find_next_range_map at hfind
        rw [List.find?_eq_none] at hfind
        exact hfind x hx (find_pred_iff.mpr (Or.inr hcov))
      rw [AlmanacMap.map_eq_self_of_no_rule hnone]
      rfl
    | some rm =>
      by_cases hcov : intervalContains rm.range_in v = true
      · rw [map_ranges_loop_succ_covered f (by omega) hfind hcov] at h
        have hcov2 := intervalContains_range_in.mp hcov
        have hmin : min rm.range_in.2 (v + 1) = v + 1 := by
          have hv2 : v < rm.range_in.2 := hcov2.2
          omega
        rw [hmin, map_ranges_loop_of_not_lt f (by omega)] at h
        injection h with he
        subst he
        rw [AlmanacMap.map_eq_of_find_covers hfind hcov2]
        rfl
      · have hcov3 : intervalContains rm.range_in v = false := by
          simpa using hcov
        have hncov := intervalContains_range_in_false.mp hcov3
        rw [map_ranges_loop_succ_gap f (by omega) hfind hcov3] at h
        rcases Nat.lt_or_ge v rm.source_start with hgap | hge
        · rw [map_ranges_loop_of_not_lt f (by omega)] at h
          injection h with he
          subst he
          have hnone := AlmanacMap.no_rule_covers_of_find_gap hs hfind hgap
          rw [AlmanacMap.map_eq_self_of_no_rule hnone]
          rfl
        · have hsrc : rm.source_start = v := by
            rcases find_next_range_map_pred hfind with h1 | h2
            · omega
            · exact absurd h2 hncov
          rw [hsrc, map_ranges_loop_diverges (by omega) hfind hcov3 hsrc f] at h
          cases h

/-! ### The claims -/

/-- C1 (refuted, code bug): the claim says the sum of the lengths of the
intervals returned by `map_ranges` always equals the length of the query
interval.  On the table with the single rule `(dest 200, src 100, len 5)`
and the query `[3, 4)` (length 1), the code returns the single interval
`[3, 100)` of length 97: the identity branch of the loop emits
`pos..range_in.start` without clamping to `range.end`. -/
theorem c1_map_ranges_overshoots_interval_length :
    AlmanacMap.map_ranges [RangeMap.mk 200 100 5] (3, 4) = some [(3, 100)] ∧
    totalLength [(3, 100)] = 97 ∧ intervalLength (3, 4) = 1 :=
  ⟨by rfl, by rfl, by rfl⟩

/-- C2 (refuted, code bug): the claim says the minimum over the starts of
`get_seed_location_ranges` equals the minimum of `seed_to_location` over all
seeds of the seed ranges.  For the parseable almanac `day5CexInput` the
range pipeline reports minimum location 0 while the only seed, 10, has
location 10 — a consequence of the unclamped identity branch (C1). -/
theorem c2_range_mode_minimum_differs_from_discrete :
    Almanac.from_str day5CexInput = Except.ok day5CexAlmanac ∧
    Almanac.get_seed_location_ranges day5CexAlmanac =
      some [(10, 50), (0, 1), (51, 100)] ∧
    (([(10, 50), (0, 1), (51, 100)] : List (Nat × Nat)).map Prod.fst).min? = some 0 ∧
    Almanac.iter_all_seed_locations day5CexAlmanac = [10] ∧
    ([10] : List Nat).min? = some 10 :=
  ⟨by rfl, by rfl, by rfl, by rfl, by rfl⟩

/-- C3 (refuted, code bug): the claim says `map_ranges` terminates for every
rule table, including tables containing zero-length rules.  On the table
with the single zero-length rule `(dest 7, src 5, len 0)` and the query
`[3, 10)`, the loop reaches cursor position 5, finds the zero-length rule,
takes the identity branch with target `source_start = 5`, and never
advances: the loop model returns `none` for every fuel, i.e. the Rust
`while` loop runs forever. -/
theorem c3_map_ranges_diverges_on_zero_length_rule :
    ∀ fuel, AlmanacMap.map_ranges_loop [RangeMap.mk 7 5 0] 10 fuel 3 = none := by
  have h5 : ∀ fuel, AlmanacMap.map_ranges_loop [RangeMap.mk 7 5 0] 10 fuel 5 = none :=
    map_ranges_loop_diverges (by omega) (by rfl) (by rfl) (by rfl)
  intro fuel
  cases fuel with
  | zero => exact map_ranges_loop_zero_of_lt (by omega)
  | succ f =>
    rw [map_ranges_loop_succ_gap f (by omega) (by rfl) (by rfl)]
    rw [show (RangeMap.mk 7 5 0).source_start = 5 from rfl, h5]
    rfl

/-- C4 (confirmed): on every rule table whose rules are sorted by
`source_start` (the invariant `AlmanacMap::new` establishes for every table
the program builds, see `pairwise_new`), whenever
`map_ranges` returns on the one-value query `v..v+1`, it returns exactly one
interval, and the start of that interval is `AlmanacMap.map values v`:
single-value and interval mapping agree. -/
theorem c4_value_interval_agreement (values : AlmanacMap) (v : Nat)
    (out : List (Nat × Nat))
    (hs : List.Pairwise (fun a b => a.source_start ≤ b.source_start) values)
    (h : AlmanacMap.map_ranges values (v, v + 1) = some out) :
    out.map Prod.fst = [AlmanacMap.map values v] := by
  unfold AlmanacMap.map_ranges at h
  exact map_ranges_loop_singleton hs _ h

/-- Witness for C4 at the table `[(dest 50, src 10, len 5)]` and `v = 12`. -/
theorem c4_value_interval_agreement_witness :
    ([(52, 53)] : List (Nat × Nat)).map Prod.fst =
      [AlmanacMap.map [RangeMap.mk 50 10 5] 12] :=
  c4_value_interval_agreement [RangeMap.mk 50 10 5] 12 [(52, 53)]
    (by decide) (by rfl)

/-- C5 (confirmed): a value covered by no rule of the table passes through
`AlmanacMap.map` unchanged. -/
theorem c5_identity_passthrough (values : AlmanacMap) (v : Nat)
    (h : ∀ rm ∈ values,
      ¬ (rm.source_start ≤ v ∧ v < rm.source_start + rm.range_length)) :
    AlmanacMap.map values v = v :=
  AlmanacMap.map_eq_self_of_no_rule h

/-- Witness for C5: value 3 is not covered by the rule `(dest 50, src 10, len 5)`. -/
theorem c5_identity_passthrough_witness :
    AlmanacMap.map [RangeMap.mk 50 10 5] 3 = 3 :=
  c5_identity_passthrough [RangeMap.mk 50 10 5] 3 (by decide)

/-- C6 (confirmed): `RangeMap.map` returns
`destination_start + (v - source_start)` exactly when
`source_start ≤ v < source_start + range_length` and `none` otherwise, and
on covered values the mapped value differs from `v` by the constant offset
`destination_start - source_start` (as integers). -/
theorem c6_range_rule_map_spec (rm : RangeMap) (v : Nat) :
    (rm.map v =
      if rm.source_start ≤ v ∧ v < rm.source_start + rm.range_length
      then some (rm.destination_start + (v - rm.source_start)) else none) ∧
    (rm.source_start ≤ v → v < rm.source_start + rm.range_length →
      ∀ w, rm.map v = some w →
        (w : Int) - (v : Int) =
          (rm.destination_start : Int) - (rm.source_start : Int)) := by
  constructor
  · unfold RangeMap.map
    split_ifs <;> first | rfl | (exfalso; omega)
  · intro h1 h2 w hw
    rw [RangeMap.map_of_covers ⟨h1, h2⟩] at hw
    injection hw with he
    subst he
    omega

/-- Witness for C6 at the rule `(dest 50, src 10, len 5)` and `v = 12`. -/
theorem c6_range_rule_map_spec_witness :
    ((RangeMap.mk 50 10 5).map 12 = some 52) ∧
    ((52 : Int) - (12 : Int) = (50 : Int) - (10 : Int)) := by
  have h := c6_range_rule_map_spec (RangeMap.mk 50 10 5) 12
  refine ⟨?_, ?_⟩
  · rw [h.1]
    rfl
  · exact h.2 (by decide) (by decide) 52 (by rw [h.1]; rfl)

/-- C7 (confirmed): `Almanac.seed_to_location` is the left-to-right
composition of the seven stage maps in their fixed order. -/
theorem c7_chain_composition (a : Almanac) (v : Nat) :
    a.seed_to_location v =
      (Almanac.stageMaps a).foldl (fun x m => AlmanacMap.map m x) v := rfl

/-- C8 (confirmed): `map_ranges` on an empty interval returns the empty
sequence, and on a table with no rules it returns the query interval itself
as the single identity interval. -/
theorem c8_empty_interval_empty_table :
    (∀ (values : AlmanacMap) (r : Nat × Nat), r.2 ≤ r.1 →
      AlmanacMap.map_ranges values r = some []) ∧
    (∀ r : Nat × Nat, r.1 < r.2 →
      AlmanacMap.map_ranges ([] : AlmanacMap) r = some [r]) := by
  constructor
  · intro values r h
    unfold AlmanacMap.map_ranges
    exact map_ranges_loop_of_not_lt _ (by omega)
  · intro r h
    unfold AlmanacMap.map_ranges
    obtain ⟨f, hf⟩ : ∃ f, r.2 - r.1 = f + 1 := ⟨r.2 - r.1 - 1, by omega⟩
    rw [hf, map_ranges_loop_succ_break f (by omega) (by rfl)]

/-- Witness for C8: the empty interval `[5, 5)` on a non-trivial table, and
the non-empty interval `[3, 7)` on the empty table. -/
theorem c8_empty_interval_empty_table_witness :
    AlmanacMap.map_ranges [RangeMap.mk 1 2 3] (5, 5) = some [] ∧
    AlmanacMap.map_ranges ([] : AlmanacMap) (3, 7) = some [(3, 7)] :=
  ⟨c8_empty_interval_empty_table.1 [RangeMap.mk 1 2 3] (5, 5) (by decide),
   c8_empty_interval_empty_table.2 (3, 7) (by decide)⟩

theorem exceptOkBind {ε α β : Type} (a : α) (f : α → Except ε β) :
    (Except.ok a : Except ε α) >>= f = f a := rfl

theorem exceptErrorBind {ε α β : Type} (e : ε) (f : α → Except ε β) :
    (Except.error e : Except ε α) >>= f = Except.error e := rfl

/-- C9 (confirmed): when the seed line parses to an odd-length list of
numbers, `Almanac::from_str` fails with `InsufficientSeedNumbers` and no
almanac is produced (`get_seed_ranges` is called right after the seed
numbers are read, before any map section is parsed). -/
theorem c9_odd_seed_list_parse_error (s : String) (seedLine : List Char)
    (rest : List (List Char)) (seeds : List Nat)
    (hl : rustLines s.data = seedLine :: rest)
    (hp : (("seeds: ").data.isPrefixOf seedLine) = true)
    (hs : Almanac.parseSeedNumbers seedLine = Except.ok seeds)
    (hodd : seeds.length % 2 = 1) :
    Almanac.from_str s = Except.error AlmanacParseError.insufficientSeedNumbers := by
  have hr : get_seed_ranges seeds =
      Except.error AlmanacParseError.insufficientSeedNumbers := by
    unfold get_seed_ranges
    rw [if_pos (by omega)]
  unfold Almanac.from_str
  rw [hl]
  simp only [hp, if_true, hs, exceptOkBind, hr, exceptErrorBind]

/-- Witness for C9: the input `"seeds: 1 2 3"` with three seed numbers. -/
theorem c9_odd_seed_list_parse_error_witness :
    Almanac.from_str ("seeds: 1 2 3") =
      Except.error AlmanacParseError.insufficientSeedNumbers :=
  c9_odd_seed_list_parse_error ("seeds: 1 2 3") (("seeds: 1 2 3").data) [] [1, 2, 3]
    (by rfl) (by rfl) (by rfl) (by rfl)

/-- C10 (confirmed): on a table whose rules all have positive length, every
interval of a completed `map_ranges` result is non-empty. -/
theorem c10_map_ranges_outputs_nonempty (values : AlmanacMap) (r : Nat × Nat)
    (out : List (Nat × Nat))
    (hpos : ∀ rm ∈ values, 0 < rm.range_length)
    (h : AlmanacMap.map_ranges values r = some out) :
    ∀ p ∈ out, p.1 < p.2 := by
  unfold AlmanacMap.map_ranges at h
  exact map_ranges_loop_nonempty hpos r.2 _ r.1 out h

/-- Witness for C10 at the table `[(dest 50, src 10, len 5)]` and the query
`[3, 20)`, whose first output interval is `(3, 10)`. -/
theorem c10_map_ranges_outputs_nonempty_witness :
    ((3, 10) : Nat × Nat).1 < ((3, 10) : Nat × Nat).2 :=
  c10_map_ranges_outputs_nonempty [RangeMap.mk 50 10 5] (3, 20)
    [(3, 10), (50, 55), (15, 20)] (by decide) (by rfl) (3, 10) (by decide)

end Almanac2023
